import Mathlib

/-!
Verification development for the RAG / tool-orchestration core of the
repository: the deduplicating index store (`MistralEmbedClient` in
`aiFeatures/EmbeddingClient.py`), the citation formatter
(`AITools.search_rag` in `aiFeatures/AITools.py`), and the tool
orchestration loop (`MistralClient.run_with_tools` and
`MistralClient.build_tool_spec` in `aiFeatures/MistralClient.py`).

Each Python function is shallowly embedded as an executable Lean
function.  Stateful code is modelled by explicit state passing; Python
exceptions are modelled by `Except`; the external services (FAISS vector
index, the embedding backend, the model backend, `json.loads`, the
LangChain text splitter) are modelled as parameters or as transparent
data (the FAISS index is the list of documents embedded into it).
-/

set_option autoImplicit false
set_option maxRecDepth 10000

namespace Rag

/-- A metadata page value: PyMuPDF stores pages as ints; the chunker may
stamp the string `"N/A"`.  Mirrors the dynamically typed
`metadata['page']` values that actually occur in the code. -/
inductive PageVal where
  | num (n : Int)
  | str (s : String)
  deriving DecidableEq, Repr

/-- The metadata keys the core reads or writes (`page`, `filename`,
`source`); a missing key is `none`, mirroring `metadata.get(k, default)`. -/
structure Metadata where
  page : Option PageVal
  filename : Option String
  source : Option String
  deriving DecidableEq, Repr

/-- A LangChain `Document`: page content plus optional metadata
(`doc.metadata` may be `None` in the defensive branches of the code). -/
structure Document where
  page_content : String
  metadata : Option Metadata
  deriving DecidableEq, Repr

/-- Embeds `MistralEmbedClient._get_document_hash`.  The source computes
`hashlib.md5(content.encode()).hexdigest()`; md5 is modelled as an
injective content fingerprint, i.e. the content itself, which matches
its collision-free use as a set membership key. -/
def get_document_hash (content : String) : String := content

/-- The mutable state of `MistralEmbedClient` that the ingestion
operations touch: `self.vector_store` (the FAISS index modelled as the
list of documents embedded into it, `none` = no index yet),
`self.document_hashes` (a Python `set`, modelled as a duplicate-free
list built by add-if-absent), and `self.max_documents`. -/
structure EmbedState where
  vector_store : Option (List Document)
  document_hashes : List String
  max_documents : Nat
  deriving DecidableEq, Repr

/-- A fresh store: no index, no fingerprints, a configured cap. -/
def emptyStore (max_documents : Nat) : EmbedState :=
  { vector_store := none, document_hashes := [], max_documents := max_documents }

/-- The fingerprint-set size `len(self.document_hashes)`. -/
def fingerprintCount (st : EmbedState) : Nat := st.document_hashes.length

/-- The number of chunks actually embedded into the vector index. -/
def embeddedCount (st : EmbedState) : Nat := (st.vector_store.getD []).length

/-- One iteration of the dedup loop in
`add_embeddings_with_deduplication` (lines 112-119): accumulate the
survivor list `unique_texts` and the updated hash set. -/
def dedupStep (acc : List Document × List String) (text : Document) :
    List Document × List String :=
  let doc_hash := get_document_hash text.page_content
  if doc_hash ∈ acc.2 then acc else (acc.1 ++ [text], acc.2 ++ [doc_hash])

/-- Python list slicing `xs[:k]` for a possibly negative `k`
(the code computes `texts[:self.max_documents - current_size]`, which
is negative when the hash set already exceeds the cap). -/
def pySliceTo {α : Type} (xs : List α) (k : Int) : List α :=
  if 0 ≤ k then xs.take k.toNat else xs.take (xs.length - (-k).toNat)

/-- Embeds `MistralEmbedClient.add_embeddings_with_deduplication`
(lines 104-140).  `FAISS.from_documents` is modelled as `some texts`
and `merge_from` as list append; the function returns the post-call
state.  Note the source updates `self.document_hashes` inside the dedup
loop, before the capacity check truncates `texts`. -/
def add_embeddings_with_deduplication (st : EmbedState) (texts0 : List Document)
    (force_add : Bool) : EmbedState :=
  let filtered :=
    if force_add then (texts0, st.document_hashes)
    else texts0.foldl dedupStep ([], st.document_hashes)
  let texts1 := filtered.1
  let hashes1 := filtered.2
  if texts1.isEmpty then
    { st with document_hashes := hashes1 }
  else
    let current_size := hashes1.length
    let texts2 :=
      if current_size + texts1.length > st.max_documents then
        pySliceTo texts1 ((st.max_documents : Int) - (current_size : Int))
      else texts1
    let vs :=
      match st.vector_store with
      | none => some texts2
      | some old => if texts2.isEmpty then some old else some (old ++ texts2)
    { st with vector_store := vs, document_hashes := hashes1 }

/-- Embeds `MistralEmbedClient.add_embeddings` (lines 142-144): the
force path that bypasses duplicate checking. -/
def add_embeddings (st : EmbedState) (texts : List Document) : EmbedState :=
  add_embeddings_with_deduplication st texts true

/-- The metadata values `split_document` reads from the parent document
(line 86): `document.metadata.get('page', 'N/A') if document.metadata
else 'N/A'`. -/
def parentPage (document : Document) : PageVal :=
  match document.metadata with
  | some m => m.page.getD (PageVal.str "N/A")
  | none => PageVal.str "N/A"

/-- Line 87: the parent `filename`, defaulting to `'Unknown'`. -/
def parentFilename (document : Document) : String :=
  match document.metadata with
  | some m => m.filename.getD "Unknown"
  | none => "Unknown"

/-- Line 88: the parent `source`, defaulting to `'Unknown'`. -/
def parentSource (document : Document) : String :=
  match document.metadata with
  | some m => m.source.getD "Unknown"
  | none => "Unknown"

/-- Embeds `MistralEmbedClient.split_document` (lines 75-102).  The
external `RecursiveCharacterTextSplitter` is a parameter; `.error`
models a raised exception, which the `except` clause turns into `[]`.
On success every chunk is stamped with the parent's page / filename /
source (overwriting the corresponding metadata keys). -/
def split_document (splitter : Document → Except String (List Document))
    (document : Document) : List Document :=
  match splitter document with
  | .error _ => []
  | .ok texts =>
      texts.map (fun chunk =>
        { chunk with
            metadata := some
              { page := some (parentPage document)
                filename := some (parentFilename document)
                source := some (parentSource document) } })

/-- A sequence of deduplicated (`force_add=False`) ingestion calls. -/
def addDedupSeq (st : EmbedState) (batches : List (List Document)) : EmbedState :=
  batches.foldl (fun s b => add_embeddings_with_deduplication s b false) st

/-- Whether a single deduplicated add avoids the capacity truncation:
the source truncates when `current_size + len(texts) >
self.max_documents`, where `current_size` is the hash-set size after
the dedup loop. -/
def dedupAddNoTrunc (st : EmbedState) (texts0 : List Document) : Bool :=
  let filtered := texts0.foldl dedupStep ([], st.document_hashes)
  decide (filtered.2.length + filtered.1.length ≤ st.max_documents)

/-- Whether every call of a sequence of deduplicated adds avoids the
capacity truncation. -/
def seqNoTrunc : EmbedState → List (List Document) → Bool
  | _, [] => true
  | st, b :: bs =>
      dedupAddNoTrunc st b &&
        seqNoTrunc (add_embeddings_with_deduplication st b false) bs

/-- A chunk with the given content and no metadata. -/
def mkChunk (s : String) : Document := { page_content := s, metadata := none }

/-- `n` pairwise-distinct one-character chunks. -/
def uniqueChunks (n : Nat) : List Document :=
  (List.range n).map (fun i => mkChunk (String.mk [Char.ofNat i]))

/-- Fixture chunk. -/
def dA : Document := mkChunk "alpha"

/-- Fixture chunk. -/
def dB : Document := mkChunk "beta"

/-- Fixture chunk. -/
def dC : Document := mkChunk "gamma"

/-- The hash of a chunk, as computed inside the dedup loop. -/
def chunkHash (t : Document) : String := get_document_hash t.page_content

/-- The state after a deduplicated add of two unique chunks into a store
capped at one document (counterexample fixture for the fingerprint/embedded
invariant). -/
def sC3 : EmbedState := add_embeddings_with_deduplication (emptyStore 1) [dA, dB] false

/-- The state after a forced add of two chunks into a store capped at one
document (counterexample fixture for the force-path frame claim). -/
def sC9 : EmbedState := add_embeddings (emptyStore 1) [dA, dB]

/- ------------------------------------------------------------------
Citation formatter: `AITools.search_rag` (aiFeatures/AITools.py,
lines 186-234).  The store lookup and similarity search are external;
the embedding covers the result-formatting core, operating on the list
of search hits.
------------------------------------------------------------------ -/

/-- Python `str(p)` for a metadata page value (`f"Page {pages[0]}"`
etc.): ints print in decimal, strings print themselves. -/
def pageStr : PageVal → String
  | .num n => toString n
  | .str s => s

/-- Python `str(p).isdigit()` (line 211): true iff the printed page is
nonempty and all characters are decimal digits (checked over the
string's character list). -/
def pageIsDigit (p : PageVal) : Bool :=
  !(pageStr p).data.isEmpty && (pageStr p).data.all Char.isDigit

/-- Decimal value of a digit string (Python `int` on a string that
passed `isdigit`). -/
def digitsToNat (cs : List Char) : Nat :=
  cs.foldl (fun n c => 10 * n + (c.toNat - 48)) 0

/-- Python `int(p)` as used in the numeric-pages comprehension
(line 211), only ever evaluated under the `isdigit` guard. -/
def pageInt : PageVal → Int
  | .num n => n
  | .str s => (digitsToNat s.data : Nat)

/-- Python `", ".join(map(str, pages))` (lines 215, 217). -/
def commaJoin (ss : List String) : String := String.intercalate ", " ss

/-- Line 193: `metadata.get('filename', metadata.get('source',
'Unknown document'))`; a hit without metadata gets the full default. -/
def filename_of (res : Document) : String :=
  match res.metadata with
  | none => "Unknown document"
  | some m => m.filename.getD (m.source.getD "Unknown document")

/-- Line 194: `metadata.get('page', 'N/A')`. -/
def page_of (res : Document) : PageVal :=
  match res.metadata with
  | none => PageVal.str "N/A"
  | some m => m.page.getD (PageVal.str "N/A")

/-- One step of building `doc_groups` (lines 196-200): a Python dict
from filename to the list of `(page, content)` pairs, preserving
insertion order of both keys and per-key appends. -/
def groupInsert (gs : List (String × List (PageVal × String))) (fn : String)
    (pc : PageVal × String) : List (String × List (PageVal × String)) :=
  match gs with
  | [] => [(fn, [pc])]
  | g :: rest =>
      if g.1 = fn then (g.1, g.2 ++ [pc]) :: rest
      else g :: groupInsert rest fn pc

/-- The `doc_groups` dict after scanning all hits in order. -/
def buildGroups (results : List Document) :
    List (String × List (PageVal × String)) :=
  results.foldl
    (fun gs res => groupInsert gs (filename_of res) (page_of res, res.page_content))
    []

/-- The page-descriptor logic (lines 204-218): one page renders
`"Page P"`; otherwise the numeric pages are collected with the
`isdigit` filter and, when any exist, the source sorts them and renders
`"Pages {min}-{max}"` (folded min/max here, the same values); only when
no page is numeric does it render the comma-joined raw page values. -/
def renderPageInfo (pages : List PageVal) : String :=
  if pages.length = 1 then "Page " ++ pageStr (pages.headD (PageVal.str "N/A"))
  else
    let numeric_pages :=
      pages.filterMap (fun p => if pageIsDigit p then some (pageInt p) else none)
    match numeric_pages with
    | [] => "Pages " ++ commaJoin (pages.map pageStr)
    | q :: qs =>
        "Pages " ++ toString (qs.foldl min q) ++ "-" ++ toString (qs.foldl max q)

/-- One group's output block (lines 220-229): source index header,
document name, page descriptor, then one `"  [Page P]: content"` line
per hit for multi-hit groups or a single `"Content:"` line. -/
def renderGroup (source_idx : Nat) (fn : String)
    (pcs : List (PageVal × String)) : String :=
  let page_info := renderPageInfo (pcs.map Prod.fst)
  let header := "[Source " ++ toString source_idx ++ "]\n"
      ++ "Document: " ++ fn ++ "\n" ++ page_info ++ "\n"
  let contentLines :=
    if pcs.length > 1 then
      String.join (pcs.map (fun pc => "  [Page " ++ pageStr pc.1 ++ "]: " ++ pc.2 ++ "\n"))
    else
      String.join (pcs.map (fun pc => "Content: " ++ pc.2 ++ "\n"))
  header ++ contentLines ++ "\n"

/-- The formatting core of `AITools.search_rag` given the similarity
hits: empty results yield the fixed notice (line 184); otherwise the
concatenated group blocks with 1-based source indices. -/
def search_rag_format (results : List Document) : String :=
  if results.isEmpty then "No relevant information found in the RAG system."
  else
    String.join ((buildGroups results).enum.map
      (fun g => renderGroup (g.1 + 1) g.2.1 g.2.2))

/-- Ordered-set insertion of a key. -/
def insertKey (ks : List String) (fn : String) : List String :=
  if fn ∈ ks then ks else ks ++ [fn]

/-- Modelled from the spec: "groups hits by filename, preserving
first-seen order of filenames" — the filename list in first-seen
order, for comparison with the group keys the code produces. -/
def specFirstSeen (names : List String) : List String :=
  names.foldl insertKey []

/-- Counterexample fixture: a hit from file "A" with numeric page 3. -/
def hitA1 : Document :=
  { page_content := "c1"
    metadata := some
      { page := some (PageVal.num 3), filename := some "A", source := some "A.pdf" } }

/-- Counterexample fixture: a hit from file "A" with page "N/A". -/
def hitA2 : Document :=
  { page_content := "c2"
    metadata := some
      { page := some (PageVal.str "N/A"), filename := some "A", source := some "A.pdf" } }

/- ------------------------------------------------------------------
Tool registry and orchestration loop: `MistralClient.build_tool_spec`
(aiFeatures/MistralClient.py, lines 49-74) and
`MistralClient.run_with_tools` (lines 91-160).
------------------------------------------------------------------ -/

/-- A Python parameter annotation as `inspect.signature` reports it:
absent (`inspect._empty`), `int`, `float`, or some other annotation. -/
inductive AnnKind where
  | empty
  | int
  | float
  | other (s : String)
  deriving DecidableEq, Repr

/-- One parameter of a callable: its name, annotation, and default
value (`none` models `inspect._empty`, i.e. no default). -/
structure PyParam where
  name : String
  ann : AnnKind
  default : Option String
  deriving DecidableEq, Repr

/-- A Python callable as `build_tool_spec` inspects it: `__name__`,
`__doc__` and the ordered parameter list of its signature. -/
structure PyFunc where
  name : String
  doc : Option String
  params : List PyParam
  deriving DecidableEq, Repr

/-- The tool spec dict built by `build_tool_spec`: the `properties`
mapping (ordered, name → JSON type), the `required` name list, the
truncated description and the function name. -/
structure ToolSpec where
  name : String
  description : String
  properties : List (String × String)
  required : List String
  deriving DecidableEq, Repr

/-- Line 56-58: `ann_type = "string"` unless the annotation is `int` or
`float`, in which case `"number"`. -/
def annType (a : AnnKind) : String :=
  match a with
  | .int => "number"
  | .float => "number"
  | _ => "string"

/-- Python `str.strip()` over a character list: drop leading and
trailing whitespace. -/
def pyStrip (cs : List Char) : List Char :=
  ((cs.dropWhile Char.isWhitespace).reverse.dropWhile Char.isWhitespace).reverse

/-- Embeds `MistralClient.build_tool_spec` (lines 49-74): properties
collect every parameter with its inferred type, `required` collects the
parameters without a default, and the description is the docstring
(empty if absent) stripped and truncated to the first 800 characters
(`(func.__doc__ or "").strip()[:800]`). -/
def build_tool_spec (func : PyFunc) : ToolSpec :=
  { name := func.name
    description := String.mk ((pyStrip (func.doc.getD "").data).take 800)
    properties := func.params.map (fun p => (p.name, annType p.ann))
    required := (func.params.filter (fun p => p.default.isNone)).map
      (fun p => p.name) }

/-- Tool-call arguments: `tc.function.arguments` may already be a dict
or may be a JSON-encoded string needing `json.loads` (line 138). -/
inductive ArgsRepr where
  | dict (args : List (String × String))
  | str (raw : String)
  deriving DecidableEq, Repr

/-- A requested tool call: id, target tool name, arguments. -/
structure ToolCall where
  id : String
  name : String
  arguments : ArgsRepr
  deriving DecidableEq, Repr

/-- An assistant message as returned by the model backend: content
(possibly null) and the requested tool calls (`msg.tool_calls or []`). -/
structure AssistantMsg where
  content : Option String
  tool_calls : List ToolCall
  deriving DecidableEq, Repr

/-- A conversation message (`UserMessage` / `AssistantMessage` /
`ToolMessage`); the tool variant carries content, tool name and
`tool_call_id`, as constructed at lines 150-155. -/
inductive Message where
  | user (content : String)
  | assistant (msg : AssistantMsg)
  | tool (content : String) (name : String) (tool_call_id : String)
  deriving DecidableEq, Repr

/-- A callable tool: its `__name__` and its execution `fn(**args)`,
which either returns a (stringified) value or raises (`.error`). -/
structure PyTool where
  name : String
  run : List (String × String) → Except String String

/-- Lines 137-147: process one tool call.  Arguments that are already a
dict are used as-is; an encoded string goes through `json.loads`,
modelled by the `parse` parameter — note the source performs this parse
OUTSIDE the `try`, so a parse failure propagates (`.error`).  Lookup
miss and tool exceptions are converted to inline textual results. -/
def execCall (parse : String → Except String (List (String × String)))
    (tools : List PyTool) (tc : ToolCall) : Except String Message :=
  let argsE :=
    match tc.arguments with
    | .dict d => Except.ok d
    | .str s => parse s
  match argsE with
  | .error e => .error e
  | .ok args =>
      let result :=
        match tools.find? (fun f => f.name == tc.name) with
        | none => "Error: function " ++ tc.name ++ " not implemented"
        | some fn =>
            match fn.run args with
            | .ok r => r
            | .error e => "Error executing " ++ tc.name ++ ": " ++ e
      .ok (Message.tool result tc.name tc.id)

/-- Lines 136-155: the per-round loop over the requested tool calls, in
order; an uncaught exception aborts the whole round (no later call
runs), otherwise the synthesized tool messages are returned in call
order. -/
def toolRound (parse : String → Except String (List (String × String)))
    (tools : List PyTool) : List ToolCall → Except String (List Message)
  | [] => .ok []
  | tc :: rest =>
      match execCall parse tools tc with
      | .error e => .error e
      | .ok m =>
          match toolRound parse tools rest with
          | .error e => .error e
          | .ok ms => .ok (m :: ms)

/-- Lines 119-160: the bounded round loop.  Fuel counts the remaining
rounds of `for iteration in range(max_iterations)`; exhausting it
returns the fixed sentinel (line 160).  A round with no tool calls
returns the model's content (joined/defaulted to `""`); otherwise the
assistant message and the round's tool messages are appended and the
loop continues. -/
def runLoop (model : List Message → AssistantMsg)
    (parse : String → Except String (List (String × String)))
    (tools : List PyTool) : Nat → List Message → Except String String
  | 0, _ => .ok "Max tool iterations reached"
  | n + 1, messages =>
      let msg := model messages
      if msg.tool_calls.isEmpty then .ok (msg.content.getD "")
      else
        match toolRound parse tools msg.tool_calls with
        | .error e => .error e
        | .ok tms => runLoop model parse tools n (messages ++ Message.assistant msg :: tms)

/-- Embeds `MistralClient.run_with_tools` (lines 91-160) for a fixed
model backend and argument parser.  An empty tool list short-circuits
to a single model call (lines 97-108); otherwise the round loop runs
on the conversation seeded with the user instruction.  The returned
value is the text result; `.error` models an exception reaching the
caller. -/
def run_with_tools (model : List Message → AssistantMsg)
    (parse : String → Except String (List (String × String)))
    (instruction : String) (tools : List PyTool)
    (max_iterations : Nat) : Except String String :=
  if tools.isEmpty then .ok ((model [Message.user instruction]).content.getD "")
  else runLoop model parse tools max_iterations [Message.user instruction]

/-- Whether a tool call's arguments survive the parse step: dict
arguments always do, encoded strings iff `json.loads` succeeds. -/
def argsOk (parse : String → Except String (List (String × String)))
    (tc : ToolCall) : Prop :=
  match tc.arguments with
  | .dict _ => True
  | .str s => ∃ d, parse s = .ok d

/-- A parser fixture: every string fails to parse, the way `json.loads`
raises on malformed input. -/
def parseFail : String → Except String (List (String × String)) :=
  fun s => .error ("Expecting value: " ++ s)

/-- A tool fixture that always succeeds. -/
def toolEcho : PyTool := { name := "echo", run := fun _ => .ok "ok" }

/-- A model fixture: in round one it requests one tool call with
malformed (string) arguments followed by one well-formed call; in any
later round it would return plain content. -/
def modelBadArgs : List Message → AssistantMsg := fun msgs =>
  if msgs.length == 1 then
    { content := none
      tool_calls :=
        [ { id := "id1", name := "echo", arguments := ArgsRepr.str "oops" },
          { id := "id2", name := "echo", arguments := ArgsRepr.dict [] } ] }
  else { content := some "finished", tool_calls := [] }

/-- A model fixture that always requests a single malformed-arguments
tool call, whatever the conversation. -/
def modelAlwaysBad : List Message → AssistantMsg := fun _ =>
  { content := some "partial"
    tool_calls := [ { id := "id9", name := "echo", arguments := ArgsRepr.str "bad2" } ] }

/-- A model fixture that always requests one well-formed tool call. -/
def modelAlwaysTool : List Message → AssistantMsg := fun _ =>
  { content := none
    tool_calls := [ { id := "id3", name := "echo", arguments := ArgsRepr.dict [] } ] }

/-- A tool fixture that always raises. -/
def toolBoom : PyTool := { name := "boom", run := fun _ => .error "kaboom" }

/-- Concrete tool list used in witnesses. -/
def toolsWit : List PyTool := [toolBoom, toolEcho]

/-- Witness fixture: a callable with one required numeric parameter,
one optional string-annotated parameter and one optional float
parameter. -/
def funcWit : PyFunc :=
  { name := "demo"
    doc := some "  adds things  "
    params :=
      [ { name := "x", ann := AnnKind.int, default := none },
        { name := "label", ann := AnnKind.other "str", default := some "hi" },
        { name := "rate", ann := AnnKind.float, default := some "1.0" } ] }

/-- Witness fixture: a parent document with full metadata. -/
def docPar : Document :=
  { page_content := "body"
    metadata := some
      { page := some (PageVal.num 2)
        filename := some "f.pdf"
        source := some "dir/f.pdf" } }

/-- Splitter fixture that returns one bare chunk. -/
def splitOk : Document → Except String (List Document) :=
  fun d => .ok [{ page_content := d.page_content, metadata := none }]

/-- Splitter fixture that always raises. -/
def splitErr : Document → Except String (List Document) :=
  fun _ => .error "boom"

/- ------------------------------------------------------------------
Lemmas about the dedup loop.
------------------------------------------------------------------ -/

theorem dedup_foldl_len :
    ∀ (ts us : List Document) (hs : List String),
      ((ts.foldl dedupStep (us, hs)).2).length + us.length
        = ((ts.foldl dedupStep (us, hs)).1).length + hs.length := by
  intro ts
  induction ts with
  | nil => intro us hs; simp [Nat.add_comm]
  | cons t ts ih =>
    intro us hs
    simp only [List.foldl_cons]
    by_cases h : get_document_hash t.page_content ∈ hs
    · simp only [dedupStep, h, if_pos]
      exact ih us hs
    · simp only [dedupStep, h, if_neg, not_false_iff]
      have := ih (us ++ [t]) (hs ++ [get_document_hash t.page_content])
      simp only [List.length_append, List.length_cons, List.length_nil] at this ⊢
      omega

theorem mem_dedup_foldl_of_mem :
    ∀ (ts us : List Document) (hs : List String) (x : String),
      x ∈ hs → x ∈ (ts.foldl dedupStep (us, hs)).2 := by
  intro ts
  induction ts with
  | nil => intro us hs x hx; simpa using hx
  | cons t ts ih =>
    intro us hs x hx
    simp only [List.foldl_cons]
    by_cases h : get_document_hash t.page_content ∈ hs
    · simp only [dedupStep, h, if_pos]
      exact ih us hs x hx
    · simp only [dedupStep, h, if_neg, not_false_iff]
      exact ih _ _ x (List.mem_append_left _ hx)

theorem hash_mem_dedup_foldl :
    ∀ (ts us : List Document) (hs : List String) (t : Document),
      t ∈ ts → chunkHash t ∈ (ts.foldl dedupStep (us, hs)).2 := by
  intro ts
  induction ts with
  | nil => intro us hs t ht; cases ht
  | cons t' ts ih =>
    intro us hs t ht
    simp only [List.foldl_cons]
    rcases List.mem_cons.mp ht with rfl | hmem
    · by_cases h : get_document_hash t.page_content ∈ hs
      · simp only [dedupStep, h, if_pos]
        exact mem_dedup_foldl_of_mem ts us hs _ h
      · simp only [dedupStep, h, if_neg, not_false_iff]
        exact mem_dedup_foldl_of_mem ts _ _ _
          (List.mem_append_right _ (List.mem_singleton.mpr rfl))
    · by_cases h : get_document_hash t'.page_content ∈ hs
      · simp only [dedupStep, h, if_pos]
        exact ih us hs t hmem
      · simp only [dedupStep, h, if_neg, not_false_iff]
        exact ih _ _ t hmem

theorem dedup_foldl_of_all_mem :
    ∀ (ts us : List Document) (hs : List String),
      (∀ t ∈ ts, chunkHash t ∈ hs) → ts.foldl dedupStep (us, hs) = (us, hs) := by
  intro ts
  induction ts with
  | nil => intro us hs _; rfl
  | cons t ts ih =>
    intro us hs hall
    have h : get_document_hash t.page_content ∈ hs := hall t (List.mem_cons_self t ts)
    simp only [List.foldl_cons, dedupStep, h, if_pos]
    exact ih us hs (fun t' ht' => hall t' (List.mem_cons_of_mem _ ht'))

theorem dedup_foldl_of_fresh :
    ∀ (ts us : List Document) (hs : List String),
      (∀ t ∈ ts, chunkHash t ∉ hs) → (ts.map chunkHash).Nodup →
      ts.foldl dedupStep (us, hs) = (us ++ ts, hs ++ ts.map chunkHash) := by
  intro ts
  induction ts with
  | nil => intro us hs _ _; simp
  | cons t ts ih =>
    intro us hs hfresh hnd
    have h : get_document_hash t.page_content ∉ hs :=
      hfresh t (List.mem_cons_self t ts)
    simp only [List.foldl_cons, dedupStep, h, if_neg, not_false_iff]
    have hnd' : (ts.map chunkHash).Nodup := (List.nodup_cons.mp (by simpa using hnd)).2
    have hhd : chunkHash t ∉ ts.map chunkHash := (List.nodup_cons.mp (by simpa using hnd)).1
    have hfresh' : ∀ t' ∈ ts, chunkHash t' ∉ hs ++ [get_document_hash t.page_content] := by
      intro t' ht'
      intro hmem
      rcases List.mem_append.mp hmem with hin | hin
      · exact hfresh t' (List.mem_cons_of_mem _ ht') hin
      · have : chunkHash t' = chunkHash t := List.mem_singleton.mp hin
        exact hhd (this ▸ List.mem_map_of_mem chunkHash ht')
    rw [ih _ _ hfresh' hnd']
    simp [chunkHash]

theorem add_dedup_hashes (st : EmbedState) (texts : List Document) :
    (add_embeddings_with_deduplication st texts false).document_hashes
      = (texts.foldl dedupStep ([], st.document_hashes)).2 := by
  simp only [add_embeddings_with_deduplication, Bool.false_eq_true, if_neg,
    not_false_iff]
  split <;> rfl

theorem add_dedup_fingerprintCount (st : EmbedState) (texts : List Document) :
    fingerprintCount (add_embeddings_with_deduplication st texts false)
      = st.document_hashes.length
        + ((texts.foldl dedupStep ([], st.document_hashes)).1).length := by
  have h := dedup_foldl_len texts [] st.document_hashes
  simp only [List.length_nil, Nat.add_zero] at h
  simp only [fingerprintCount, add_dedup_hashes, h]
  omega

theorem add_dedup_vector_store_of_le (st : EmbedState) (texts : List Document)
    (hle : ((texts.foldl dedupStep ([], st.document_hashes)).2).length
          + ((texts.foldl dedupStep ([], st.document_hashes)).1).length
          ≤ st.max_documents) :
    (add_embeddings_with_deduplication st texts false).vector_store
      = (if ((texts.foldl dedupStep ([], st.document_hashes)).1).isEmpty then
          st.vector_store
        else
          match st.vector_store with
          | none => some (texts.foldl dedupStep ([], st.document_hashes)).1
          | some old => some (old ++ (texts.foldl dedupStep ([], st.document_hashes)).1)) := by
  rcases hF : texts.foldl dedupStep ([], st.document_hashes) with ⟨texts1, hashes1⟩
  rw [hF] at hle
  by_cases hE : texts1.isEmpty
  · simp [add_embeddings_with_deduplication, hF, hE]
  · have hnotgt : ¬ hashes1.length + texts1.length > st.max_documents := by
      simp only at hle; omega
    cases hvs : st.vector_store with
    | none =>
      simp [add_embeddings_with_deduplication, hF, hE, hnotgt, hvs]
    | some old =>
      simp [add_embeddings_with_deduplication, hF, hE, hnotgt, hvs]

theorem add_dedup_embeddedCount_of_le (st : EmbedState) (texts : List Document)
    (hle : ((texts.foldl dedupStep ([], st.document_hashes)).2).length
          + ((texts.foldl dedupStep ([], st.document_hashes)).1).length
          ≤ st.max_documents) :
    embeddedCount (add_embeddings_with_deduplication st texts false)
      = embeddedCount st
        + ((texts.foldl dedupStep ([], st.document_hashes)).1).length := by
  have h := add_dedup_vector_store_of_le st texts hle
  by_cases hE : ((texts.foldl dedupStep ([], st.document_hashes)).1).isEmpty
  · have hlen : ((texts.foldl dedupStep ([], st.document_hashes)).1).length = 0 :=
      List.isEmpty_iff_length_eq_zero.mp hE
    simp [embeddedCount, h, hE, hlen]
  · simp only [hE, ite_false, Bool.false_eq_true, not_false_iff] at h
    cases hvs : st.vector_store with
    | none => simp [embeddedCount, h, hvs]
    | some old => simp [embeddedCount, h, hvs]

theorem add_force_hashes (st : EmbedState) (texts : List Document) :
    (add_embeddings st texts).document_hashes = st.document_hashes := by
  by_cases hE : texts.isEmpty <;>
    simp [add_embeddings, add_embeddings_with_deduplication, hE]

theorem add_force_max (st : EmbedState) (texts : List Document) :
    (add_embeddings st texts).max_documents = st.max_documents := by
  by_cases hE : texts.isEmpty <;>
    simp [add_embeddings, add_embeddings_with_deduplication, hE]

theorem add_force_embeddedCount_of_le (st : EmbedState) (texts : List Document)
    (hle : st.document_hashes.length + texts.length ≤ st.max_documents) :
    embeddedCount (add_embeddings st texts) = embeddedCount st + texts.length := by
  by_cases hE : texts.isEmpty
  · have hnil : texts = [] := List.isEmpty_iff.mp hE
    subst hnil
    simp [add_embeddings, add_embeddings_with_deduplication, embeddedCount]
  · have hnotgt : ¬ st.document_hashes.length + texts.length > st.max_documents := by
      omega
    cases hvs : st.vector_store with
    | none =>
      simp [add_embeddings, add_embeddings_with_deduplication, embeddedCount,
        hE, hnotgt, hvs]
    | some old =>
      simp [add_embeddings, add_embeddings_with_deduplication, embeddedCount,
        hE, hnotgt, hvs]

/-- Claim C1: the spec states that with deduplication enabled a batch
that would push the total past `max_documents` is truncated before
embedding so the fingerprint-set size never exceeds the cap, and that
from an empty store with `max_documents = 100` one call adding 150
unique chunks leaves the fingerprint-set size exactly 100.  The code
adds every survivor's hash to `self.document_hashes` inside the dedup
loop, before the capacity check truncates `texts`, so the fingerprint
set ends at 150 while only 100 chunks are embedded: the cap invariant
the code's own warning message is meant to enforce is violated. -/
theorem add_dedup_capacity_bug :
    fingerprintCount (add_embeddings_with_deduplication (emptyStore 100)
        (uniqueChunks 150) false) = 150 ∧
    embeddedCount (add_embeddings_with_deduplication (emptyStore 100)
        (uniqueChunks 150) false) = 100 := by decide

/-- Claim C3 (counterexample): a single deduplicated add of two unique
chunks into a store capped at one document leaves two fingerprints but
only one embedded chunk, refuting both "always equals" and "never
more". -/
theorem fingerprint_embed_mismatch_cex :
    fingerprintCount sC3 = 2 ∧ embeddedCount sC3 = 1 ∧
    fingerprintCount sC3 ≠ embeddedCount sC3 ∧
    ¬ fingerprintCount sC3 ≤ embeddedCount sC3 := by decide

/-- Claim C3 (amended): for every sequence of deduplicated
(`force_add=False`) add calls in which no call triggers the capacity
truncation, the fingerprint-set size equals the number of chunks
embedded into the vector index. -/
theorem fingerprint_count_eq_embedded_of_no_trunc
    (st : EmbedState) (batches : List (List Document))
    (hinv : fingerprintCount st = embeddedCount st)
    (hnt : seqNoTrunc st batches = true) :
    fingerprintCount (addDedupSeq st batches)
      = embeddedCount (addDedupSeq st batches) := by
  induction batches generalizing st with
  | nil => simpa [addDedupSeq] using hinv
  | cons b bs ih =>
    simp only [seqNoTrunc, Bool.and_eq_true] at hnt
    obtain ⟨h1, h2⟩ := hnt
    have hle : ((b.foldl dedupStep ([], st.document_hashes)).2).length
        + ((b.foldl dedupStep ([], st.document_hashes)).1).length
        ≤ st.max_documents := by
      simpa [dedupAddNoTrunc] using h1
    have hstep : fingerprintCount (add_embeddings_with_deduplication st b false)
        = embeddedCount (add_embeddings_with_deduplication st b false) := by
      rw [add_dedup_fingerprintCount, add_dedup_embeddedCount_of_le st b hle, ← hinv]
      rfl
    have hseq : addDedupSeq st (b :: bs)
        = addDedupSeq (add_embeddings_with_deduplication st b false) bs := by
      simp [addDedupSeq]
    rw [hseq]
    exact ih _ hstep h2

/-- Witness for the amended C3 theorem at a concrete two-batch run. -/
theorem fingerprint_count_eq_embedded_witness :
    seqNoTrunc (emptyStore 5) [[dA, dB], [dB, dC]] = true ∧
    fingerprintCount (addDedupSeq (emptyStore 5) [[dA, dB], [dB, dC]])
      = embeddedCount (addDedupSeq (emptyStore 5) [[dA, dB], [dB, dC]]) :=
  ⟨by decide,
    fingerprint_count_eq_embedded_of_no_trunc (emptyStore 5) [[dA, dB], [dB, dC]]
      (by decide) (by decide)⟩

/-- Claim C8: adding the same set of chunks twice with deduplication
enabled is idempotent: the second call finds no survivors, leaves the
vector index untouched, adds nothing, and leaves the whole store state
(including the fingerprint set) exactly as after the first call. -/
theorem add_dedup_idempotent (st : EmbedState) (texts : List Document) :
    add_embeddings_with_deduplication
        (add_embeddings_with_deduplication st texts false) texts false
      = add_embeddings_with_deduplication st texts false := by
  set st1 := add_embeddings_with_deduplication st texts false with hst1
  have hall : ∀ t ∈ texts, chunkHash t ∈ st1.document_hashes := by
    intro t ht
    rw [hst1, add_dedup_hashes]
    exact hash_mem_dedup_foldl texts [] st.document_hashes t ht
  have hfix : texts.foldl dedupStep ([], st1.document_hashes)
      = ([], st1.document_hashes) :=
    dedup_foldl_of_all_mem texts [] st1.document_hashes hall
  show add_embeddings_with_deduplication st1 texts false = st1
  simp only [add_embeddings_with_deduplication, Bool.false_eq_true, if_neg,
    not_false_iff, hfix]
  simp

/-- Claim C9 (counterexample): a forced add of two chunks into an empty
store capped at one document embeds only one chunk, refuting "embeds
every chunk into the vector index". -/
theorem force_add_truncation_cex :
    embeddedCount sC9 = 1 ∧ embeddedCount sC9 ≠ 2 := by decide

/-- Claim C9 (amended): a forced add leaves the fingerprint set
completely unchanged, and embeds every chunk provided the batch fits
under the capacity check (`len(document_hashes) + len(texts) <=
max_documents`); under fresh pairwise-distinct hashes and sufficient
capacity a later deduplicated add of the same chunks does not see them
as duplicates (all survive the dedup filter) and re-embeds them. -/
theorem force_add_frame (st : EmbedState) (texts : List Document) :
    (add_embeddings st texts).document_hashes = st.document_hashes
    ∧ (st.document_hashes.length + texts.length ≤ st.max_documents →
        embeddedCount (add_embeddings st texts) = embeddedCount st + texts.length)
    ∧ ((∀ t ∈ texts, chunkHash t ∉ st.document_hashes) →
        (texts.map chunkHash).Nodup →
        (texts.foldl dedupStep ([], (add_embeddings st texts).document_hashes)).1
          = texts)
    ∧ ((∀ t ∈ texts, chunkHash t ∉ st.document_hashes) →
        (texts.map chunkHash).Nodup →
        st.document_hashes.length + 2 * texts.length ≤ st.max_documents →
        embeddedCount (add_embeddings_with_deduplication
            (add_embeddings st texts) texts false)
          = embeddedCount st + 2 * texts.length) := by
  refine ⟨add_force_hashes st texts,
    fun hle => add_force_embeddedCount_of_le st texts hle, ?_, ?_⟩
  · intro hfresh hnd
    rw [add_force_hashes]
    rw [dedup_foldl_of_fresh texts [] st.document_hashes hfresh hnd]
    simp
  · intro hfresh hnd hcap
    have hh : (add_embeddings st texts).document_hashes = st.document_hashes :=
      add_force_hashes st texts
    have hfold : texts.foldl dedupStep ([], (add_embeddings st texts).document_hashes)
        = ([] ++ texts, st.document_hashes ++ texts.map chunkHash) := by
      rw [hh]
      exact dedup_foldl_of_fresh texts [] st.document_hashes hfresh hnd
    have hle1 : st.document_hashes.length + texts.length ≤ st.max_documents := by
      omega
    have hle2 : ((texts.foldl dedupStep
          ([], (add_embeddings st texts).document_hashes)).2).length
        + ((texts.foldl dedupStep
          ([], (add_embeddings st texts).document_hashes)).1).length
        ≤ (add_embeddings st texts).max_documents := by
      rw [hfold, add_force_max]
      simp only [List.length_append, List.nil_append, List.length_map]
      omega
    rw [add_dedup_embeddedCount_of_le (add_embeddings st texts) texts hle2,
      add_force_embeddedCount_of_le st texts hle1, hfold]
    simp only [List.nil_append]
    omega

/- ------------------------------------------------------------------
Citation formatter lemmas and theorems.
------------------------------------------------------------------ -/

theorem filterMap_digit_of_all_false :
    ∀ (l : List PageVal), (∀ x ∈ l, pageIsDigit x = false) →
      l.filterMap (fun p => if pageIsDigit p then some (pageInt p) else none)
        = [] := by
  intro l
  induction l with
  | nil => intro _; rfl
  | cons p ps ih =>
    intro h
    have hp := h p (List.mem_cons_self p ps)
    simp [List.filterMap_cons, hp,
      ih (fun x hx => h x (List.mem_cons_of_mem _ hx))]

theorem filterMap_digit_of_all_true :
    ∀ (l : List PageVal), (∀ x ∈ l, pageIsDigit x = true) →
      l.filterMap (fun p => if pageIsDigit p then some (pageInt p) else none)
        = l.map pageInt := by
  intro l
  induction l with
  | nil => intro _; rfl
  | cons p ps ih =>
    intro h
    have hp := h p (List.mem_cons_self p ps)
    simp [List.filterMap_cons, hp,
      ih (fun x hx => h x (List.mem_cons_of_mem _ hx))]

theorem groupInsert_keys :
    ∀ (gs : List (String × List (PageVal × String))) (fn : String)
      (pc : PageVal × String),
      (groupInsert gs fn pc).map Prod.fst = insertKey (gs.map Prod.fst) fn := by
  intro gs
  induction gs with
  | nil => intro fn pc; simp [groupInsert, insertKey]
  | cons g rest ih =>
    intro fn pc
    by_cases h : g.1 = fn
    · simp [groupInsert, h, insertKey]
    · have hne : fn ≠ g.1 := fun hx => h hx.symm
      by_cases h2 : fn ∈ rest.map Prod.fst
      · simp [groupInsert, h, insertKey, ih, h2, hne]
      · simp [groupInsert, h, insertKey, ih, h2, hne]

theorem buildGroups_keys_aux :
    ∀ (hits : List Document) (gs : List (String × List (PageVal × String))),
      ((hits.foldl
          (fun gs res =>
            groupInsert gs (filename_of res) (page_of res, res.page_content))
          gs).map Prod.fst)
        = (hits.map filename_of).foldl insertKey (gs.map Prod.fst) := by
  intro hits
  induction hits with
  | nil => intro gs; rfl
  | cons h rest ih =>
    intro gs
    simp only [List.foldl_cons, List.map_cons]
    rw [ih, groupInsert_keys]

theorem buildGroups_keys (hits : List Document) :
    (buildGroups hits).map Prod.fst = specFirstSeen (hits.map filename_of) := by
  unfold buildGroups specFirstSeen
  simpa using buildGroups_keys_aux hits []

/-- Claim C4 (counterexample): a two-hit group from file "A" with pages
`[3, "N/A"]` — one numeric, one not — renders the range `"Pages 3-3"`
over the numeric subset, not the comma-joined list `"Pages 3, N/A"`
that the claim prescribes when any page value is non-numeric. -/
theorem citation_mixed_pages_cex :
    search_rag_format [hitA1, hitA2]
      = "[Source 1]\nDocument: A\nPages 3-3\n  [Page 3]: c1\n  [Page N/A]: c2\n\n"
    ∧ search_rag_format [hitA1, hitA2]
      ≠ "[Source 1]\nDocument: A\nPages 3, N/A\n  [Page 3]: c1\n  [Page N/A]: c2\n\n" := by
  constructor
  · rfl
  · decide

/-- Claim C4 (amended): hits are grouped by filename in first-seen
order; a single-page group renders `"Page P"`; a multi-hit group where
every page passes the `isdigit` test renders the inclusive range
`"Pages MIN-MAX"`; a multi-hit group where no page is numeric renders
the comma-joined raw page values; and (the corrected case) a multi-hit
group whose numeric-page filter is nonempty renders the min-max range
over the numeric subset, even if other pages are non-numeric. -/
theorem citation_formatting_cases :
    (∀ hits : List Document,
        (buildGroups hits).map Prod.fst = specFirstSeen (hits.map filename_of))
    ∧ (∀ p : PageVal, renderPageInfo [p] = "Page " ++ pageStr p)
    ∧ (∀ (p : PageVal) (ps : List PageVal), ps ≠ [] →
        (∀ x ∈ p :: ps, pageIsDigit x = true) →
        renderPageInfo (p :: ps)
          = "Pages " ++ toString ((ps.map pageInt).foldl min (pageInt p))
            ++ "-" ++ toString ((ps.map pageInt).foldl max (pageInt p)))
    ∧ (∀ pages : List PageVal, pages.length ≠ 1 →
        (∀ x ∈ pages, pageIsDigit x = false) →
        renderPageInfo pages = "Pages " ++ commaJoin (pages.map pageStr))
    ∧ (∀ (pages : List PageVal) (q : Int) (qs : List Int), pages.length ≠ 1 →
        pages.filterMap (fun p => if pageIsDigit p then some (pageInt p) else none)
          = q :: qs →
        renderPageInfo pages
          = "Pages " ++ toString (qs.foldl min q) ++ "-"
            ++ toString (qs.foldl max q)) := by
  refine ⟨buildGroups_keys, fun p => rfl, ?_, ?_, ?_⟩
  · intro p ps hne hall
    have hlen : (p :: ps).length ≠ 1 := by
      cases ps with
      | nil => exact absurd rfl hne
      | cons a as => simp
    unfold renderPageInfo
    rw [if_neg hlen, filterMap_digit_of_all_true _ hall]
    rfl
  · intro pages hlen hall
    unfold renderPageInfo
    rw [if_neg hlen, filterMap_digit_of_all_false _ hall]
  · intro pages q qs hlen hfm
    unfold renderPageInfo
    rw [if_neg hlen, hfm]

/-- Witness for the amended C4 theorem: a two-file grouping check plus
the four page-descriptor cases at concrete page lists, including the
spec's own examples `[3,4,5] ↦ "Pages 3-5"` and
`["N/A","N/A"] ↦ "Pages N/A, N/A"`. -/
theorem citation_formatting_cases_witness :
    (buildGroups [hitA1, hitA2]).map Prod.fst
      = specFirstSeen ([hitA1, hitA2].map filename_of)
    ∧ renderPageInfo [PageVal.num 7] = "Page 7"
    ∧ renderPageInfo [PageVal.num 3, PageVal.num 4, PageVal.num 5] = "Pages 3-5"
    ∧ renderPageInfo [PageVal.str "N/A", PageVal.str "N/A"] = "Pages N/A, N/A"
    ∧ renderPageInfo [PageVal.num 3, PageVal.str "N/A"] = "Pages 3-3" := by
  have h := citation_formatting_cases
  refine ⟨h.1 [hitA1, hitA2], h.2.1 (PageVal.num 7), ?_, ?_, ?_⟩
  · rw [h.2.2.1 (PageVal.num 3) [PageVal.num 4, PageVal.num 5]
      (by decide) (by decide)]
    rfl
  · rw [h.2.2.2.1 [PageVal.str "N/A", PageVal.str "N/A"] (by decide) (by decide)]
    rfl
  · rw [h.2.2.2.2 [PageVal.num 3, PageVal.str "N/A"] 3 [] (by decide) (by decide)]
    rfl

/-- Witness for the amended C9 theorem at a concrete forced add of two
fresh chunks into an empty store with room for four. -/
theorem force_add_frame_witness :
    (add_embeddings (emptyStore 10) [dA, dB]).document_hashes = [] ∧
    embeddedCount (add_embeddings (emptyStore 10) [dA, dB]) = 2 ∧
    (List.foldl dedupStep
        ([], (add_embeddings (emptyStore 10) [dA, dB]).document_hashes)
        [dA, dB]).1 = [dA, dB] ∧
    embeddedCount (add_embeddings_with_deduplication
        (add_embeddings (emptyStore 10) [dA, dB]) [dA, dB] false) = 4 := by
  have h := force_add_frame (emptyStore 10) [dA, dB]
  refine ⟨h.1, ?_, ?_, ?_⟩
  · simpa using h.2.1 (by decide)
  · exact h.2.2.1 (by decide) (by decide)
  · simpa using h.2.2.2 (by decide) (by decide) (by decide)

/- ------------------------------------------------------------------
Orchestration loop lemmas and theorems.
------------------------------------------------------------------ -/

theorem toolRound_ok (parse : String → Except String (List (String × String)))
    (tools : List PyTool) :
    ∀ (tcs : List ToolCall), (∀ tc ∈ tcs, argsOk parse tc) →
      ∃ tms, toolRound parse tools tcs = .ok tms ∧ tms.length = tcs.length := by
  intro tcs
  induction tcs with
  | nil => intro _; exact ⟨[], rfl, rfl⟩
  | cons tc rest ih =>
    intro h
    have htc := h tc (List.mem_cons_self tc rest)
    have hex : ∃ m, execCall parse tools tc = .ok m := by
      unfold argsOk at htc
      cases hres : execCall parse tools tc with
      | ok m => exact ⟨m, rfl⟩
      | error e =>
        exfalso
        cases harg : tc.arguments with
        | dict d => simp [execCall, harg] at hres
        | str s =>
          rw [harg] at htc
          obtain ⟨dd, hdd⟩ := htc
          simp [execCall, harg, hdd] at hres
    obtain ⟨m, hm⟩ := hex
    obtain ⟨tms, htms, hlen⟩ := ih (fun x hx => h x (List.mem_cons_of_mem _ hx))
    exact ⟨m :: tms, by simp [toolRound, hm, htms], by simp [hlen]⟩

/-- Claim C2: the spec says malformed tool-call arguments should be
scoped to that one call, producing an error result for it, with no
exception from argument parsing reaching the caller of
`run_with_tools`.  The code performs `json.loads(tc.function.arguments)`
OUTSIDE the `try`/`except` that guards tool execution, so a parse
failure propagates out of `run_with_tools`, aborting the whole round
(the well-formed second call of the round never executes).  This
theorem evaluates the embedded loop at such an input: the result is the
escaped exception, not a conversation containing an error tool
message. -/
theorem run_with_tools_parse_error_escapes :
    run_with_tools modelBadArgs parseFail "hi" [toolEcho] 10
      = Except.error ("Expecting value: " ++ "oops") := by
  rfl

/-- Claim C5: for a tool call with well-formed (dict) arguments, a
lookup miss yields a tool message with the "not implemented" notice, a
raising tool yields a tool message carrying the exception text, a
succeeding tool yields its (stringified) return value; and a round
whose calls all have parseable arguments never crashes: the loop
appends the assistant message and the synthesized tool messages and
proceeds to the next model round. -/
theorem tool_dispatch_cases
    (parse : String → Except String (List (String × String)))
    (tools : List PyTool) (tc : ToolCall) (d : List (String × String))
    (hd : tc.arguments = ArgsRepr.dict d) :
    (tools.find? (fun f => f.name == tc.name) = none →
      execCall parse tools tc
        = .ok (Message.tool ("Error: function " ++ tc.name ++ " not implemented")
            tc.name tc.id))
    ∧ (∀ fn e, tools.find? (fun f => f.name == tc.name) = some fn →
        fn.run d = .error e →
        execCall parse tools tc
          = .ok (Message.tool ("Error executing " ++ tc.name ++ ": " ++ e)
              tc.name tc.id))
    ∧ (∀ fn r, tools.find? (fun f => f.name == tc.name) = some fn →
        fn.run d = .ok r →
        execCall parse tools tc = .ok (Message.tool r tc.name tc.id))
    ∧ (∀ (tcs : List ToolCall), (∀ tc' ∈ tcs, argsOk parse tc') →
        ∃ tms, toolRound parse tools tcs = .ok tms ∧ tms.length = tcs.length
          ∧ ∀ (model : List Message → AssistantMsg) (n : Nat)
              (messages : List Message),
              (model messages).tool_calls = tcs → tcs ≠ [] →
              runLoop model parse tools (n + 1) messages
                = runLoop model parse tools n
                    (messages ++ Message.assistant (model messages) :: tms)) := by
  refine ⟨?_, ?_, ?_, ?_⟩
  · intro hfind
    simp [execCall, hd, hfind]
  · intro fn e hfind hrun
    simp [execCall, hd, hfind, hrun]
  · intro fn r hfind hrun
    simp [execCall, hd, hfind, hrun]
  · intro tcs hok
    obtain ⟨tms, h1, h2⟩ := toolRound_ok parse tools tcs hok
    refine ⟨tms, h1, h2, ?_⟩
    intro model n messages hmc hne
    have hE : (model messages).tool_calls.isEmpty = false := by
      rw [hmc]
      cases tcs with
      | nil => exact absurd rfl hne
      | cons a as => rfl
    simp [runLoop, hmc, hE, hne, h1]

/-- Witness for the C5 theorem: the three dispatch outcomes on a
concrete tool list ("ghost" missing, "boom" raising, "echo"
succeeding), and the loop stepping from round 2 to round 1 after a
well-formed tool round. -/
theorem tool_dispatch_cases_witness :
    execCall parseFail toolsWit
        { id := "idm", name := "ghost", arguments := ArgsRepr.dict [] }
      = .ok (Message.tool "Error: function ghost not implemented" "ghost" "idm")
    ∧ execCall parseFail toolsWit
        { id := "idb", name := "boom", arguments := ArgsRepr.dict [] }
      = .ok (Message.tool "Error executing boom: kaboom" "boom" "idb")
    ∧ execCall parseFail toolsWit
        { id := "ide", name := "echo", arguments := ArgsRepr.dict [] }
      = .ok (Message.tool "ok" "echo" "ide")
    ∧ ∃ tms, toolRound parseFail toolsWit (modelAlwaysTool []).tool_calls = .ok tms
        ∧ tms.length = 1
        ∧ runLoop modelAlwaysTool parseFail toolsWit 2 []
            = runLoop modelAlwaysTool parseFail toolsWit 1
                ([] ++ Message.assistant (modelAlwaysTool []) :: tms) := by
  refine ⟨?_, ?_, ?_, ?_⟩
  · exact (tool_dispatch_cases parseFail toolsWit
      { id := "idm", name := "ghost", arguments := ArgsRepr.dict [] } [] rfl).1 rfl
  · exact (tool_dispatch_cases parseFail toolsWit
      { id := "idb", name := "boom", arguments := ArgsRepr.dict [] } [] rfl).2.1
      toolBoom "kaboom" rfl rfl
  · exact (tool_dispatch_cases parseFail toolsWit
      { id := "ide", name := "echo", arguments := ArgsRepr.dict [] } [] rfl).2.2.1
      toolEcho "ok" rfl rfl
  · obtain ⟨tms, h1, h2, h3⟩ := (tool_dispatch_cases parseFail toolsWit
      { id := "ide", name := "echo", arguments := ArgsRepr.dict [] } [] rfl).2.2.2
      (modelAlwaysTool []).tool_calls
      (by
        intro tc' h'
        have := List.mem_singleton.mp h'
        subst this
        exact trivial)
    exact ⟨tms, h1, h2, h3 modelAlwaysTool 1 [] rfl (by
      intro hcontra
      exact List.noConfusion hcontra)⟩

/-- Claim C6 (counterexample): with a model that always requests a tool
call whose arguments fail to parse, the loop ends with the escaped
parse exception — neither the model's content nor the max-iterations
sentinel, refuting the claimed two-outcome dichotomy for arbitrary
fixed model and tool behavior. -/
theorem run_with_tools_dichotomy_cex :
    run_with_tools modelAlwaysBad parseFail "q" [toolEcho] 5
      = Except.error ("Expecting value: " ++ "bad2")
    ∧ (Except.error ("Expecting value: " ++ "bad2") : Except String String)
        ≠ Except.ok "Max tool iterations reached"
    ∧ (Except.error ("Expecting value: " ++ "bad2") : Except String String)
        ≠ Except.ok "partial" :=
  ⟨rfl, fun h => Except.noConfusion h, fun h => Except.noConfusion h⟩

theorem runLoop_ok_cases (model : List Message → AssistantMsg)
    (parse : String → Except String (List (String × String)))
    (tools : List PyTool)
    (hargs : ∀ messages, ∀ tc ∈ (model messages).tool_calls, argsOk parse tc) :
    ∀ (n : Nat) (messages : List Message),
      ∃ s, runLoop model parse tools n messages = .ok s
        ∧ (s = "Max tool iterations reached"
           ∨ ∃ ms, (model ms).tool_calls = [] ∧ s = ((model ms).content.getD "")) := by
  intro n
  induction n with
  | zero => intro messages; exact ⟨_, rfl, Or.inl rfl⟩
  | succ n ih =>
    intro messages
    by_cases hE : (model messages).tool_calls.isEmpty
    · refine ⟨(model messages).content.getD "",
        by simp [runLoop, hE],
        Or.inr ⟨messages, List.isEmpty_iff.mp hE, rfl⟩⟩
    · have hE' : (model messages).tool_calls.isEmpty = false := by
        simpa using hE
      obtain ⟨tms, htms, _⟩ :=
        toolRound_ok parse tools (model messages).tool_calls (hargs messages)
      obtain ⟨s, hs, hcase⟩ := ih (messages ++ Message.assistant (model messages) :: tms)
      exact ⟨s, by simp [runLoop, hE', htms, hs], hcase⟩

theorem runLoop_always_tools (model : List Message → AssistantMsg)
    (parse : String → Except String (List (String × String)))
    (tools : List PyTool)
    (hargs : ∀ messages, ∀ tc ∈ (model messages).tool_calls, argsOk parse tc)
    (hall : ∀ messages, (model messages).tool_calls ≠ []) :
    ∀ (n : Nat) (messages : List Message),
      runLoop model parse tools n messages = .ok "Max tool iterations reached" := by
  intro n
  induction n with
  | zero => intro messages; rfl
  | succ n ih =>
    intro messages
    have hE : (model messages).tool_calls.isEmpty = false := by
      cases h : (model messages).tool_calls with
      | nil => exact absurd h (hall messages)
      | cons a as => rfl
    obtain ⟨tms, htms, _⟩ :=
      toolRound_ok parse tools (model messages).tool_calls (hargs messages)
    simp [runLoop, hE, htms, ih]

/-- Claim C6 (amended): with a fixed model and tool behavior in which
every requested tool call's arguments parse (e.g. all arguments are
structured mappings), the loop always terminates with an ordinary
result: either the model stops requesting tools and its content is
returned, or the fixed sentinel `"Max tool iterations reached"` is
returned once the `max_iterations` rounds (fuel) are exhausted; in
particular a model that always requests a tool call always yields the
sentinel.  (Without the parse-success condition a malformed-argument
round escapes as an exception — see the counterexample.) -/
theorem run_with_tools_terminates (model : List Message → AssistantMsg)
    (parse : String → Except String (List (String × String)))
    (instruction : String) (tools : List PyTool) (max_iterations : Nat)
    (htools : tools ≠ [])
    (hargs : ∀ messages, ∀ tc ∈ (model messages).tool_calls, argsOk parse tc) :
    (∃ s, run_with_tools model parse instruction tools max_iterations = .ok s
      ∧ (s = "Max tool iterations reached"
         ∨ ∃ ms, (model ms).tool_calls = [] ∧ s = ((model ms).content.getD "")))
    ∧ ((∀ messages, (model messages).tool_calls ≠ []) →
        run_with_tools model parse instruction tools max_iterations
          = .ok "Max tool iterations reached") := by
  have hne : tools.isEmpty = false := by
    cases tools with
    | nil => exact absurd rfl htools
    | cons a as => rfl
  constructor
  · obtain ⟨s, hs, hc⟩ := runLoop_ok_cases model parse tools hargs
      max_iterations [Message.user instruction]
    exact ⟨s, by simp [run_with_tools, hne, hs], hc⟩
  · intro hall
    have h := runLoop_always_tools model parse tools hargs hall
      max_iterations [Message.user instruction]
    simp [run_with_tools, hne, h]

/-- Witness for the amended C6 theorem: a model that always requests a
well-formed tool call yields the sentinel with three rounds of fuel. -/
theorem run_with_tools_terminates_witness :
    run_with_tools modelAlwaysTool parseFail "q" toolsWit 3
      = .ok "Max tool iterations reached" := by
  have h := run_with_tools_terminates modelAlwaysTool parseFail "q" toolsWit 3
    (List.cons_ne_nil _ _)
    (by
      intro messages tc htc
      have := List.mem_singleton.mp htc
      subst this
      exact trivial)
  exact h.2 (fun messages => List.cons_ne_nil _ _)

/-- Claim C7: `build_tool_spec` classifies `int`/`float`-annotated
parameters as `"number"` and every other parameter as `"string"`; a
parameter is required iff it has no default; the description is the
stripped docstring truncated to 800 characters (empty if the docstring
is absent); and for N required and M optional parameters,
`len(required) = N` and `len(properties) = N + M`. -/
theorem build_tool_spec_correct (func : PyFunc)
    (hnodup : (func.params.map (fun p => p.name)).Nodup) :
    (∀ p ∈ func.params,
        ((p.name, "number") ∈ (build_tool_spec func).properties
          ↔ (p.ann = AnnKind.int ∨ p.ann = AnnKind.float)))
    ∧ (∀ p ∈ func.params,
        (p.name ∈ (build_tool_spec func).required ↔ p.default = none))
    ∧ (func.doc = none → (build_tool_spec func).description = "")
    ∧ (∀ ds, func.doc = some ds →
        (build_tool_spec func).description = String.mk ((pyStrip ds.data).take 800))
    ∧ (build_tool_spec func).required.length
        = (func.params.filter (fun p => p.default.isNone)).length
    ∧ (build_tool_spec func).properties.length
        = (func.params.filter (fun p => p.default.isNone)).length
          + (func.params.filter (fun p => p.default.isSome)).length := by
  refine ⟨?_, ?_, ?_, ?_, ?_, ?_⟩
  · intro p hp
    constructor
    · intro hmem
      obtain ⟨q, hq, heq⟩ := List.mem_map.mp hmem
      obtain ⟨hname, htype⟩ := Prod.mk.injEq _ _ _ _ ▸ heq
      have hqp : q = p := List.inj_on_of_nodup_map hnodup hq hp hname
      subst hqp
      cases hann : q.ann with
      | empty => rw [hann] at htype; exact absurd htype (by simp [annType])
      | int => exact Or.inl rfl
      | float => exact Or.inr rfl
      | other s => rw [hann] at htype; exact absurd htype (by simp [annType])
    · intro hann
      refine List.mem_map.mpr ⟨p, hp, ?_⟩
      rcases hann with h | h <;> rw [h] <;> rfl
  · intro p hp
    constructor
    · intro hmem
      obtain ⟨q, hq, heq⟩ := List.mem_map.mp hmem
      obtain ⟨hq1, hq2⟩ := List.mem_filter.mp hq
      have hqp : q = p := List.inj_on_of_nodup_map hnodup hq1 hp heq
      subst hqp
      exact Option.isNone_iff_eq_none.mp hq2
    · intro hdef
      exact List.mem_map.mpr
        ⟨p, List.mem_filter.mpr ⟨hp, by simp [hdef]⟩, rfl⟩
  · intro h
    simp [build_tool_spec, h, pyStrip]
  · intro ds h
    simp [build_tool_spec, h]
  · simp [build_tool_spec]
  · have hsplit := List.length_eq_length_filter_add
      (l := func.params) (fun p => p.default.isNone)
    have hfun : (fun p : PyParam => ! p.default.isNone)
        = (fun p : PyParam => p.default.isSome) := by
      funext p
      cases p.default <;> rfl
    simp only [build_tool_spec, List.length_map]
    rw [hsplit, hfun]

/-- Witness for the C7 theorem at a concrete callable with one required
and two optional parameters. -/
theorem build_tool_spec_correct_witness :
    (funcWit.params.map (fun p => p.name)).Nodup
    ∧ (∀ p ∈ funcWit.params,
        ((p.name, "number") ∈ (build_tool_spec funcWit).properties
          ↔ (p.ann = AnnKind.int ∨ p.ann = AnnKind.float)))
    ∧ (∀ p ∈ funcWit.params,
        (p.name ∈ (build_tool_spec funcWit).required ↔ p.default = none))
    ∧ (build_tool_spec funcWit).required.length = 1
    ∧ (build_tool_spec funcWit).properties.length = 3
    ∧ (build_tool_spec funcWit).description = "adds things" := by
  have h := build_tool_spec_correct funcWit (by decide)
  refine ⟨by decide, h.1, h.2.1, ?_, ?_, ?_⟩
  · rw [h.2.2.2.2.1]; rfl
  · rw [h.2.2.2.2.2]; rfl
  · rw [h.2.2.2.1 "  adds things  " rfl]; rfl

/-- Claim C10: the chunker `split_document` is total toward its caller:
a raising splitter (`.error`) yields the empty chunk list, so a failed
split is indistinguishable from a document with no chunks; on success
the result has one stamped chunk per split text and every chunk carries
the parent document's page, filename and source metadata (with the
source's `'N/A'` / `'Unknown'` defaults when the parent lacks them). -/
theorem split_document_safe
    (splitter : Document → Except String (List Document))
    (document : Document) :
    (∀ e, splitter document = .error e → split_document splitter document = [])
    ∧ (∀ texts, splitter document = .ok texts →
        (split_document splitter document).length = texts.length
        ∧ ∀ chunk ∈ split_document splitter document,
            chunk.metadata = some
              { page := some (parentPage document)
                filename := some (parentFilename document)
                source := some (parentSource document) }) := by
  constructor
  · intro e he
    simp [split_document, he]
  · intro texts ht
    constructor
    · simp [split_document, ht]
    · intro chunk hc
      simp only [split_document, ht] at hc
      obtain ⟨c, _, hc2⟩ := List.mem_map.mp hc
      rw [← hc2]

/-- Witness for the C10 theorem: a raising splitter yields `[]`, and a
one-chunk splitter yields a single chunk stamped with the parent's
page 2, filename and source. -/
theorem split_document_safe_witness :
    split_document splitErr docPar = []
    ∧ (split_document splitOk docPar).length = 1
    ∧ ∀ chunk ∈ split_document splitOk docPar,
        chunk.metadata = some
          { page := some (PageVal.num 2)
            filename := some "f.pdf"
            source := some "dir/f.pdf" } := by
  refine ⟨(split_document_safe splitErr docPar).1 "boom" rfl, ?_, ?_⟩
  · exact ((split_document_safe splitOk docPar).2
      [{ page_content := docPar.page_content, metadata := none }] rfl).1
  · exact ((split_document_safe splitOk docPar).2
      [{ page_content := docPar.page_content, metadata := none }] rfl).2

end Rag
